import Mathlib

/-!
Verification development for the `xai` model-interpreter component
(`xai/model/interpreter/model_interpreter.py`).

The interpreter drives an external explainer over sample lists and
aggregates per-class, per-feature explanation statistics.  The
`ModelInterpreter` methods are embedded directly from the Python source;
the `ExplanationAggregator` (whose module is imported by the source but
whose file is not part of the provided sources) is modelled from the
specification.  Python dictionaries are represented as association lists
in insertion order where the source relies on insertion order, and as
key-sorted association lists where a mapping is only observed up to key
equality (the statistics output).  Machine floats (confidences, scores)
are modelled as rationals.
-/

set_option maxHeartbeats 1000000

namespace Xai

/-- Opaque sample (a numpy row in the source). -/
abbrev Sample := Nat

/-- Class label identifier (int or str in the source; an opaque id here). -/
abbrev Label := Nat

/-- Feature identifier. -/
abbrev Feature := Nat

/-- Per-class part of an explanation record: the explainer's confidence for
the class and its ranked (feature, importance-score) list, ordered by
descending importance as produced by the explainer. -/
structure ClassExplanation where
  confidence : ℚ
  features : List (Feature × ℚ)
deriving DecidableEq

/-- An explanation record: a mapping from class label to its per-class
explanation, in the record's iteration (insertion) order. -/
abbrev ExplanationRecord := List (Label × ClassExplanation)

/-- The external explainer collaborator, out of scope for the repository:
`explain_instance(instance, top_labels, num_samples, num_features)`
returning an explanation record. -/
abbrev Explainer := Sample → Nat → Nat → Nat → ExplanationRecord

/-! ### Stable sorts

`sorted(..., key=itemgetter(1), reverse=1)` in the source is a stable sort
on the second component, descending; the aggregator's rankings also sort
stably by a statistic value.  Both are embedded as stable insertion sorts. -/

/-- Insert `x` into a descending-sorted list; `x` is placed before every
element whose key is not larger, so earlier input elements precede later
ones with an equal key (stability). -/
def insertDesc {α β : Type} [LinearOrder β] (x : α × β) : List (α × β) → List (α × β)
  | [] => [x]
  | y :: ys => if x.2 < y.2 then y :: insertDesc x ys else x :: y :: ys

/-- Stable sort by the second component, descending. -/
def sortDesc {α β : Type} [LinearOrder β] : List (α × β) → List (α × β)
  | [] => []
  | x :: xs => insertDesc x (sortDesc xs)

/-- Insert `x` into an ascending-sorted list, stably. -/
def insertAsc {α β : Type} [LinearOrder β] (x : α × β) : List (α × β) → List (α × β)
  | [] => [x]
  | y :: ys => if y.2 < x.2 then y :: insertAsc x ys else x :: y :: ys

/-- Stable sort by the second component, ascending. -/
def sortAsc {α β : Type} [LinearOrder β] : List (α × β) → List (α × β)
  | [] => []
  | x :: xs => insertAsc x (sortAsc xs)

/-! ### ExplanationAggregator (modelled from the spec) -/

/-- Modelled from the spec: the per-feature accumulating statistics of one
class of an `ExplanationAggregator` (the aggregator's own module is not
among the provided sources): count of appearances, running sum of
importance scores, running sum of 1-based rank positions, and the
histogram (multiset) of rank positions used to answer `top_k` queries at
query-time `k`. -/
structure FeatureStat where
  appearCount : Nat
  sumScore : ℚ
  sumRank : Nat
  rankHist : Multiset Nat
deriving DecidableEq

@[ext] theorem FeatureStat.featureStat_ext {x y : FeatureStat}
    (h1 : x.appearCount = y.appearCount) (h2 : x.sumScore = y.sumScore)
    (h3 : x.sumRank = y.sumRank) (h4 : x.rankHist = y.rankHist) : x = y := by
  cases x; cases y; simp_all

/-- Componentwise sum of feature statistics. -/
def addFS (x y : FeatureStat) : FeatureStat :=
  ⟨x.appearCount + y.appearCount, x.sumScore + y.sumScore,
   x.sumRank + y.sumRank, x.rankHist + y.rankHist⟩

/-- Modelled from the spec: the running statistics an aggregator keeps for
one class: the count of included records, the set of features seen, and
each feature's accumulated statistics. -/
structure ClassStat where
  recordCount : Nat
  featSeen : Finset Feature
  featStat : Feature → FeatureStat

@[ext] theorem ClassStat.classStat_ext {x y : ClassStat}
    (h1 : x.recordCount = y.recordCount) (h2 : x.featSeen = y.featSeen)
    (h3 : x.featStat = y.featStat) : x = y := by
  cases x; cases y; simp_all

/-- Modelled from the spec: the state of an `ExplanationAggregator`
(whose source module is not among the provided files): a fixed confidence
threshold, the set of class labels with at least one included record, and
each class's running statistics. -/
structure ExplanationAggregator where
  confidence_threshold : ℚ
  classSeen : Finset Label
  classStat : Label → ClassStat

@[ext] theorem ExplanationAggregator.aggregator_ext {x y : ExplanationAggregator}
    (h1 : x.confidence_threshold = y.confidence_threshold)
    (h2 : x.classSeen = y.classSeen) (h3 : x.classStat = y.classStat) : x = y := by
  cases x; cases y; simp_all

/-- The empty per-class statistics. -/
def emptyClassStat : ClassStat := ⟨0, ∅, fun _ => ⟨0, 0, 0, 0⟩⟩

/-- Modelled from the spec: `ExplanationAggregator(confidence_threshold=t)`
starts with no class seen and all statistics at zero. -/
def ExplanationAggregator.create (t : ℚ) : ExplanationAggregator :=
  ⟨t, ∅, fun _ => emptyClassStat⟩

/-- Pointwise function update at one key. -/
def updFn {α β : Type} [DecidableEq α] (g : α → β) (a : α) (b : β) : α → β :=
  fun x => if x = a then b else g x

/-- One feature occurrence: bump appearance count, add the score, add the
1-based rank, and record the rank in the histogram. -/
def bumpFS (fs : FeatureStat) (score : ℚ) (rank : Nat) : FeatureStat :=
  ⟨fs.appearCount + 1, fs.sumScore + score, fs.sumRank + rank, rank ::ₘ fs.rankHist⟩

/-- Fold the enumerated (0-based index, (feature, score)) list of one class
entry into the per-feature statistics; the 1-based rank is index + 1. -/
def applyFeats (g : Feature → FeatureStat) (ps : List (Nat × Feature × ℚ)) :
    Feature → FeatureStat :=
  ps.foldl (fun g' p => updFn g' p.2.1 (bumpFS (g' p.2.1) p.2.2 (p.1 + 1))) g

/-- Modelled from the spec: include one class entry of a record into that
class's running statistics. -/
def ClassStat.include (cs : ClassStat) (ce : ClassExplanation) : ClassStat :=
  ⟨cs.recordCount + 1,
   cs.featSeen ∪ (ce.features.map Prod.fst).toFinset,
   applyFeats cs.featStat ce.features.enum⟩

/-- Modelled from the spec: feed one (class, per-class explanation) entry:
classes whose confidence reaches the threshold are included, the others
contribute nothing. -/
def feedEntry (a : ExplanationAggregator) (e : Label × ClassExplanation) :
    ExplanationAggregator :=
  if a.confidence_threshold ≤ e.2.confidence then
    ⟨a.confidence_threshold, insert e.1 a.classSeen,
     updFn a.classStat e.1 ((a.classStat e.1).include e.2)⟩
  else a

/-- Modelled from the spec: `feed(explanation)` processes every class entry
of the record. -/
def ExplanationAggregator.feed (a : ExplanationAggregator) (exp : ExplanationRecord) :
    ExplanationAggregator :=
  exp.foldl feedEntry a

/-- Feed a list of records in order. -/
def feeds (a : ExplanationAggregator) (rs : List ExplanationRecord) :
    ExplanationAggregator :=
  rs.foldl ExplanationAggregator.feed a

/-- The errors surfaced by the component: the interpreter's uninitialized
error, an attribute access on a null explainer, an index error on an empty
sort result, and the aggregator's unsupported-statistic error. -/
inductive XaiError where
  | interpreterUninitialized
  | attributeNone
  | indexOutOfRange
  | unsupportedStatistic
deriving DecidableEq

/-- Statistics output: a mapping from class label to its ranked feature
list, represented as a key-sorted association list. -/
abbrev Stats := List (Label × List Feature)

/-- How often a feature appeared at rank at most `k`: the part of the rank
histogram at positions `≤ k`. -/
def topKCount (fs : FeatureStat) (k : Nat) : Nat :=
  (fs.rankHist.filter (fun r => r ≤ k)).card

/-- Modelled from the spec: one class's ranked feature list for a given
statistic type and query-time `k`: `top_k` ranks features descending by
their count of appearances at rank `≤ k`; `average_score` descending by
mean score; `average_ranking` ascending by mean rank; ties are broken by
ascending feature identifier (the sorts are stable and start from the
feature-ascending enumeration); the list is truncated to `k` features. -/
def ClassStat.statList (cs : ClassStat) (stats_type : String) (k : Nat) :
    List Feature :=
  let fs := cs.featSeen.sort (fun a b => a ≤ b)
  if stats_type = "top_k" then
    ((sortDesc (fs.map (fun f => (f, topKCount (cs.featStat f) k)))).map Prod.fst).take k
  else if stats_type = "average_score" then
    ((sortDesc (fs.map (fun f =>
      (f, (cs.featStat f).sumScore / ((cs.featStat f).appearCount : ℚ))))).map Prod.fst).take k
  else
    ((sortAsc (fs.map (fun f =>
      (f, ((cs.featStat f).sumRank : ℚ) / ((cs.featStat f).appearCount : ℚ))))).map Prod.fst).take k

/-- The payload `get_statistics` returns for a supported statistic type. -/
def statsVal (a : ExplanationAggregator) (stats_type : String) (k : Nat) : Stats :=
  (a.classSeen.sort (fun c c' => c ≤ c')).map
    (fun c => (c, (a.classStat c).statList stats_type k))

/-- Modelled from the spec: `get_statistics(stats_type, k)` answers the
three supported statistic types from the accumulated state and fails with
the unsupported-statistic error otherwise. -/
def ExplanationAggregator.get_statistics (a : ExplanationAggregator)
    (stats_type : String) (k : Nat) : Except XaiError Stats :=
  if stats_type = "top_k" ∨ stats_type = "average_score" ∨ stats_type = "average_ranking" then
    .ok (statsVal a stats_type k)
  else .error .unsupportedStatistic

/-- Modelled from the spec: a `get_statistics` call as a state-passing
method: it computes its answer from the state and leaves the state as it
was (the query mutates nothing). -/
def ExplanationAggregator.get_statistics_call (a : ExplanationAggregator)
    (stats_type : String) (k : Nat) :
    Except XaiError Stats × ExplanationAggregator :=
  (a.get_statistics stats_type k, a)

/-! ### ModelInterpreter (embedded from `model_interpreter.py`) -/

/-- `ModelInterpreter.__init__`: stores the domain and algorithm and a null
explainer reference. -/
structure ModelInterpreter where
  domain : String
  algorithm : Option String
  _explainer : Option Explainer

/-- `build_interpreter`: sets the explainer reference (the factory lookup
and `build_explainer` call are external collaborators; the resulting
explainer is taken as an argument). -/
def ModelInterpreter.build_interpreter (mi : ModelInterpreter) (ex : Explainer) :
    ModelInterpreter :=
  { mi with _explainer := some ex }

/-- `interpret_model` (lines 72-87 of the source): when the explainer is
set, create a fresh aggregator with threshold 0.8, explain every sample
with `top_labels=1`, `num_samples=max(len(samples) // 10, 100)`,
`num_features=k`, feed each record, and return
`get_statistics(stats_type, k)`; when the explainer is null (falsy), raise
`InterpreterUninitializedError`.  The progress warnings are observability
only and are not modelled. -/
def ModelInterpreter.interpret_model (mi : ModelInterpreter) (samples : List Sample)
    (stats_type : String) (k : Nat) : Except XaiError Stats :=
  match mi._explainer with
  | some ex =>
      let agg := samples.foldl
        (fun a sample =>
          a.feed (ex sample 1 (max (samples.length / 10) 100) k))
        (ExplanationAggregator.create (4 / 5 : ℚ))
      agg.get_statistics stats_type k
  | none => .error .interpreterUninitialized

/-- The probability dictionary of line 119: class label to confidence, in
the record's iteration order. -/
def probList (exp : ExplanationRecord) : List (Label × ℚ) :=
  exp.map (fun e => (e.1, e.2.confidence))

/-- Lines 116-120: explain the sample with `top_labels=class_num`,
`num_samples=100`, `num_features=k`, and take
`sorted(prob.items(), key=itemgetter(1), reverse=1)[0][0]`; the index
access on an empty sort result is an index error, modelled as `none`. -/
def predictOf (ex : Explainer) (class_num k : Nat) (s : Sample) : Option Label :=
  ((sortDesc (probList (ex s class_num 100 k))).head?).map Prod.fst

/-- A confusion-matrix-cell map: association list from
(ground-truth, predicted) to aggregator, in insertion order, matching the
Python dictionary. -/
abbrev CellMap := List ((Label × Label) × ExplanationAggregator)

/-- Whether a cell key is present. -/
def containsCell (d : CellMap) (cell : Label × Label) : Bool :=
  d.any (fun q => decide (q.1 = cell))

/-- Replace the value at one key (Python's in-place mutation of the entry
at that key; keys are unique by construction). -/
def updateAt (d : CellMap) (cell : Label × Label)
    (f : ExplanationAggregator → ExplanationAggregator) : CellMap :=
  d.map (fun q => if q.1 = cell then (q.1, f q.2) else q)

/-- The first value stored at a cell key of an association list (the
dictionary lookup observer used to state properties of the cell maps). -/
def lookupCell {γ : Type} : List ((Label × Label) × γ) → (Label × Label) → Option γ
  | [], _ => none
  | q :: d, cell => if q.1 = cell then some q.2 else lookupCell d cell

/-- Lines 115-124, one loop iteration of `error_analysis`: explain the
sample over all `class_num` classes with a budget of 100 and `k` features,
compute the predicted label, and when it differs from the ground truth,
get-or-insert a threshold-0 aggregator at the (ground-truth, predicted)
cell and feed the full record into it. -/
def eaStep (ex : Explainer) (class_num k : Nat) (d : CellMap)
    (p : Sample × Label) : Except XaiError CellMap :=
  let exp := ex p.1 class_num 100 k
  match predictOf ex class_num k p.1 with
  | none => .error .indexOutOfRange
  | some predict_label =>
      if predict_label = p.2 then .ok d
      else
        let d' := if containsCell d (p.2, predict_label) then d
                  else d ++ [((p.2, predict_label), ExplanationAggregator.create 0)]
        .ok (updateAt d' (p.2, predict_label) (fun a => a.feed exp))

/-- The `error_analysis` sample loop over `zip(valid_x, valid_y)`,
fail-fast on the first error. -/
def analyzeCells (ex : Explainer) (class_num k : Nat) (d : CellMap) :
    List (Sample × Label) → Except XaiError CellMap
  | [] => .ok d
  | p :: ps =>
      match eaStep ex class_num k d p with
      | .ok d' => analyzeCells ex class_num k d' ps
      | .error e => .error e

/-- Lines 129-131: the final loop mapping each cell to its
`get_statistics(stats_type, k)`, in cell insertion order, fail-fast. -/
def statsOfCells (stats_type : String) (k : Nat) :
    CellMap → Except XaiError (List ((Label × Label) × Stats))
  | [] => .ok []
  | q :: rest =>
      match q.2.get_statistics stats_type k with
      | .ok s =>
          match statsOfCells stats_type k rest with
          | .ok r => .ok ((q.1, s) :: r)
          | .error e => .error e
      | .error e => .error e

/-- `error_analysis` (lines 89-132 of the source): iterate over
`zip(valid_x, valid_y)` with `eaStep`, then map every created cell to its
statistics.  The source performs no initialization check: the loop body
dereferences `self._explainer` directly, so a null explainer raises an
attribute error at the first iteration, while an empty `zip` never enters
the loop and the call returns an empty mapping.  The progress warnings are
observability only and are not modelled. -/
def ModelInterpreter.error_analysis (mi : ModelInterpreter) (class_num : Nat)
    (valid_x : List Sample) (valid_y : List Label) (stats_type : String) (k : Nat) :
    Except XaiError (List ((Label × Label) × Stats)) :=
  match mi._explainer with
  | some ex =>
      match analyzeCells ex class_num k [] (valid_x.zip valid_y) with
      | .ok cells => statsOfCells stats_type k cells
      | .error e => .error e
  | none =>
      if (valid_x.zip valid_y).isEmpty then .ok []
      else .error .attributeNone

/-- The behaviour the spec ascribes to `interpret_model` once the explainer
is built: one fresh aggregator at threshold 0.8; every sample explained
restricted to the single top class, with sampling budget
`max(len(samples) // 10, 100)` and `k` requested features; the resulting
records fed in input order; the answer is that aggregator's
`get_statistics(stats_type, k)`. -/
def interpret_model_spec (ex : Explainer) (samples : List Sample)
    (stats_type : String) (k : Nat) : Except XaiError Stats :=
  let records := samples.map (fun s => ex s 1 (max (samples.length / 10) 100) k)
  (feeds (ExplanationAggregator.create (4 / 5 : ℚ)) records).get_statistics stats_type k

/-- Which misclassification cell, if any, a validation pair produces: when
the predicted label differs from the ground truth, the
(ground-truth, predicted) cell; `none` for a correctly classified pair (or
when no label can be predicted). -/
def misCell (ex : Explainer) (class_num k : Nat) (p : Sample × Label) :
    Option (Label × Label) :=
  match predictOf ex class_num k p.1 with
  | none => none
  | some pl => if pl = p.2 then none else some (p.2, pl)

/-- The explanation records of the validation pairs routed to one
misclassification cell, in input order. -/
def cellRecords (ex : Explainer) (class_num k : Nat) (ps : List (Sample × Label))
    (cell : Label × Label) : List ExplanationRecord :=
  (ps.filter (fun p => decide (misCell ex class_num k p = some cell))).map
    (fun p => ex p.1 class_num 100 k)

/-- The total contribution of one class's enumerated feature list to one
feature's statistics: one appearance, one score summand and one 1-based
rank summand per occurrence of the feature in the ranked list. -/
def featDelta (ps : List (Nat × Feature × ℚ)) (f : Feature) : FeatureStat :=
  ⟨(ps.filter (fun p => decide (p.2.1 = f))).length,
   ((ps.filter (fun p => decide (p.2.1 = f))).map (fun p => p.2.2)).sum,
   ((ps.filter (fun p => decide (p.2.1 = f))).map (fun p => p.1 + 1)).sum,
   (((ps.filter (fun p => decide (p.2.1 = f))).map (fun p => p.1 + 1) : List Nat) : Multiset Nat)⟩

/-- C2: with a null explainer, `interpret_model` fails with
`InterpreterUninitializedError` for every input; no aggregator output is
produced. -/
theorem interpret_model_uninitialized (mi : ModelInterpreter) (samples : List Sample)
    (stats_type : String) (k : Nat) (h : mi._explainer = none) :
    mi.interpret_model samples stats_type k = .error .interpreterUninitialized := by
  simp [ModelInterpreter.interpret_model, h]

/-- Witness for C2 at a concrete uninitialized interpreter and input. -/
theorem interpret_model_uninitialized_witness :
    (ModelInterpreter.mk "tabular" none none)._explainer = none ∧
    (ModelInterpreter.mk "tabular" none none).interpret_model [0, 1] "top_k" 5 =
      .error .interpreterUninitialized :=
  ⟨rfl, interpret_model_uninitialized (ModelInterpreter.mk "tabular" none none)
    [0, 1] "top_k" 5 rfl⟩

/-- C1 counterexample: on an uninitialized interpreter, `error_analysis`
with empty validation lists returns an empty mapping and does not fail
with `InterpreterUninitializedError`, contradicting the claim that it
fails so for every input. -/
theorem error_analysis_uninitialized_counterexample :
    (ModelInterpreter.mk "tabular" none none).error_analysis 2 [] [] "top_k" 5 =
      .ok [] ∧
    (ModelInterpreter.mk "tabular" none none).error_analysis 2 [] [] "top_k" 5 ≠
      .error .interpreterUninitialized :=
  ⟨rfl, fun h => Except.noConfusion h⟩

/-- C1 amended: `error_analysis` performs no initialization check; with a
null explainer it returns an empty mapping without error on an empty
sample/label zip, and otherwise fails with an attribute error (null
explainer dereference) at the first explanation request, before any
aggregation. -/
theorem error_analysis_uninitialized (mi : ModelInterpreter) (class_num : Nat)
    (valid_x : List Sample) (valid_y : List Label) (stats_type : String) (k : Nat)
    (h : mi._explainer = none) :
    mi.error_analysis class_num valid_x valid_y stats_type k =
      if (valid_x.zip valid_y).isEmpty then .ok [] else .error .attributeNone := by
  simp [ModelInterpreter.error_analysis, h]

/-- Witness for the amended C1 at a concrete uninitialized interpreter
with a nonempty validation set. -/
theorem error_analysis_uninitialized_witness :
    (ModelInterpreter.mk "tabular" none none)._explainer = none ∧
    (ModelInterpreter.mk "tabular" none none).error_analysis 2 [7] [0] "top_k" 5 =
      if (([7] : List Sample).zip ([0] : List Label)).isEmpty then .ok []
      else .error .attributeNone :=
  ⟨rfl, error_analysis_uninitialized (ModelInterpreter.mk "tabular" none none)
    2 [7] [0] "top_k" 5 rfl⟩

/-- C8: `get_statistics` is a pure query: as a state-passing call it
returns the state unchanged, and an immediately repeated call with the
same `stats_type` and `k` returns an identical result. -/
theorem get_statistics_pure (a : ExplanationAggregator) (stats_type : String) (k : Nat) :
    (a.get_statistics_call stats_type k).2 = a ∧
    ((a.get_statistics_call stats_type k).2.get_statistics_call stats_type k).1 =
      (a.get_statistics_call stats_type k).1 :=
  ⟨rfl, rfl⟩

/-- C3: with a built explainer, `interpret_model` equals the spec-side
pipeline: a fresh threshold-0.8 aggregator fed, in input order, the
explanation of each sample taken with `top_labels = 1`, sampling budget
`max(len(samples) // 10, 100)` and `k` features, queried once with
`get_statistics(stats_type, k)`. -/
theorem interpret_model_eq_spec (dom : String) (alg : Option String) (ex : Explainer)
    (samples : List Sample) (stats_type : String) (k : Nat) :
    (ModelInterpreter.mk dom alg (some ex)).interpret_model samples stats_type k =
      interpret_model_spec ex samples stats_type k := by
  simp [ModelInterpreter.interpret_model, interpret_model_spec, feeds, List.foldl_map]

/-- C10: `error_analysis` silently truncates to the first
`min(len(valid_x), len(valid_y))` pairs: it behaves exactly as on the
truncated lists, so the trailing elements of the longer list contribute to
no cell and to no statistics, and no length-mismatch error is raised. -/
theorem error_analysis_zip_truncates (mi : ModelInterpreter) (class_num : Nat)
    (valid_x : List Sample) (valid_y : List Label) (stats_type : String) (k : Nat) :
    mi.error_analysis class_num valid_x valid_y stats_type k =
      mi.error_analysis class_num
        (valid_x.take (min valid_x.length valid_y.length))
        (valid_y.take (min valid_x.length valid_y.length)) stats_type k := by
  have hz : valid_x.zip valid_y =
      (valid_x.take (min valid_x.length valid_y.length)).zip
        (valid_y.take (min valid_x.length valid_y.length)) := by
    conv_lhs => rw [← List.take_length (valid_x.zip valid_y)]
    rw [List.length_zip, List.zip_eq_zipWith, List.take_zipWith, ← List.zip_eq_zipWith]
  unfold ModelInterpreter.error_analysis
  rw [hz]

/-! ### The predicted label is the first maximal-confidence class (C9) -/

theorem find?_congr_on {α : Type} {p p' : α → Bool} (l : List α)
    (h : ∀ z ∈ l, p z = p' z) : l.find? p = l.find? p' := by
  induction l with
  | nil => rfl
  | cons a l ih =>
      have ha := h a (List.mem_cons_self a l)
      by_cases hp : p' a = true
      · rw [List.find?_cons_of_pos l (ha.trans hp), List.find?_cons_of_pos l hp]
      · rw [List.find?_cons_of_neg l (by rw [ha]; exact hp), List.find?_cons_of_neg l hp,
          ih (fun z hz => h z (List.mem_cons_of_mem a hz))]

theorem insertDesc_ne_nil {α β : Type} [LinearOrder β] (x : α × β) (s : List (α × β)) :
    insertDesc x s ≠ [] := by
  cases s with
  | nil => simp [insertDesc]
  | cons y ys => simp only [insertDesc]; split <;> simp

theorem sortDesc_eq_nil_iff {α β : Type} [LinearOrder β] {l : List (α × β)} :
    sortDesc l = [] ↔ l = [] := by
  cases l with
  | nil => simp [sortDesc]
  | cons x xs => simp [sortDesc, insertDesc_ne_nil]

theorem mem_insertDesc {α β : Type} [LinearOrder β] {z x : α × β} (s : List (α × β)) :
    z ∈ insertDesc x s ↔ z = x ∨ z ∈ s := by
  induction s with
  | nil => simp [insertDesc]
  | cons y ys ih =>
      by_cases h : x.2 < y.2
      · simp only [insertDesc, if_pos h, List.mem_cons, ih]
        tauto
      · simp only [insertDesc, if_neg h, List.mem_cons]

theorem mem_sortDesc {α β : Type} [LinearOrder β] {z : α × β} {l : List (α × β)} :
    z ∈ sortDesc l ↔ z ∈ l := by
  induction l with
  | nil => simp [sortDesc]
  | cons x xs ih => simp [sortDesc, mem_insertDesc, ih]

theorem head?_insertDesc_cons {α β : Type} [LinearOrder β] (x y : α × β)
    (ys : List (α × β)) :
    (insertDesc x (y :: ys)).head? = some (if x.2 < y.2 then y else x) := by
  by_cases h : x.2 < y.2 <;> simp [insertDesc, h]

/-- The head of the stable descending sort dominates every key of the
input list. -/
theorem sortDesc_head?_le {α β : Type} [LinearOrder β] :
    ∀ {l : List (α × β)} {p : α × β}, (sortDesc l).head? = some p →
      ∀ q ∈ l, q.2 ≤ p.2 := by
  intro l
  induction l with
  | nil => intro p hp; simp [sortDesc] at hp
  | cons x xs ih =>
      intro p hp
      rw [sortDesc] at hp
      cases hs : sortDesc xs with
      | nil =>
          have hxs : xs = [] := sortDesc_eq_nil_iff.mp hs
          rw [hs] at hp
          simp [insertDesc] at hp
          subst hxs
          intro q hq
          simp at hq
          subst hq
          rw [hp]
      | cons y ys =>
          rw [hs, head?_insertDesc_cons] at hp
          have hy : ∀ q ∈ xs, q.2 ≤ y.2 := ih (by rw [hs]; rfl)
          have hp' : (if x.2 < y.2 then y else x) = p := by injection hp
          intro q hq
          rcases List.mem_cons.mp hq with hqx | hqxs
          · subst hqx
            by_cases hlt : q.2 < y.2
            · rw [if_pos hlt] at hp'; subst hp'; exact le_of_lt hlt
            · rw [if_neg hlt] at hp'; subst hp'; exact le_refl _
          · by_cases hlt : x.2 < y.2
            · rw [if_pos hlt] at hp'; subst hp'; exact hy q hqxs
            · rw [if_neg hlt] at hp'; subst hp'
              exact le_trans (hy q hqxs) (not_lt.mp hlt)

/-- The head of the stable descending sort is the first element of the
input whose key dominates every key: stability sends the earliest maximum
to the front. -/
theorem sortDesc_head?_eq_find? {α β : Type} [LinearOrder β] (l : List (α × β)) :
    (sortDesc l).head? = l.find? (fun p => l.all (fun q => decide (q.2 ≤ p.2))) := by
  induction l with
  | nil => rfl
  | cons x xs ih =>
      by_cases hx : ∀ q ∈ xs, q.2 ≤ x.2
      · have hpred : ((x :: xs).all (fun q => decide (q.2 ≤ x.2))) = true := by
          simp only [List.all_cons, List.all_eq_true, Bool.and_eq_true, decide_eq_true_eq]
          exact ⟨le_refl _, fun q hq => hx q hq⟩
        rw [List.find?_cons_of_pos xs hpred, sortDesc]
        cases hs : sortDesc xs with
        | nil => simp [insertDesc]
        | cons y ys =>
            have hymem : y ∈ xs := mem_sortDesc.mp (by rw [hs]; exact List.mem_cons_self y ys)
            rw [head?_insertDesc_cons, if_neg (not_lt.mpr (hx y hymem))]
      · push_neg at hx
        obtain ⟨q, hqmem, hq⟩ := hx
        have hpredx : ¬ (((x :: xs).all (fun r => decide (r.2 ≤ x.2))) = true) := by
          simp only [List.all_cons, List.all_eq_true, Bool.and_eq_true, decide_eq_true_eq]
          intro hcon
          exact absurd (hcon.2 q hqmem) (not_le.mpr hq)
        rw [List.find?_cons_of_neg xs hpredx]
        have hcong : xs.find? (fun p => ((x :: xs).all (fun r => decide (r.2 ≤ p.2)))) =
            xs.find? (fun p => (xs.all (fun r => decide (r.2 ≤ p.2)))) := by
          apply find?_congr_on
          intro z hz
          simp only [List.all_cons]
          cases hall : xs.all (fun r => decide (r.2 ≤ z.2)) with
          | false => simp
          | true =>
              have hq' : q.2 ≤ z.2 := by
                have := List.all_eq_true.mp hall q hqmem
                simpa using this
              simp [le_of_lt (lt_of_lt_of_le hq hq')]
        rw [hcong, ← ih, sortDesc]
        cases hs : sortDesc xs with
        | nil =>
            exfalso
            have : xs = [] := sortDesc_eq_nil_iff.mp hs
            subst this
            simp at hqmem
        | cons y ys =>
            have hy := sortDesc_head?_le (l := xs) (p := y) (by rw [hs]; rfl)
            have hlt : x.2 < y.2 := lt_of_lt_of_le hq (hy q hqmem)
            rw [head?_insertDesc_cons, if_pos hlt]
            rfl

/-- C9: the predicted label of `error_analysis` is the first class, in the
record's iteration order, whose confidence dominates every confidence in
the record — so when several classes tie at the maximal confidence the
earliest one wins (the descending sort is stable) and the predicted label
is a deterministic function of the record. -/
theorem predict_label_first_max (ex : Explainer) (class_num k : Nat) (s : Sample) :
    predictOf ex class_num k s =
      ((probList (ex s class_num 100 k)).find?
        (fun p => (probList (ex s class_num 100 k)).all
          (fun q => decide (q.2 ≤ p.2)))).map Prod.fst := by
  unfold predictOf
  rw [sortDesc_head?_eq_find?]

/-! ### One error-analysis iteration (C4) -/

/-- C4: one `error_analysis` iteration on the pair `(sample, ground_truth)`
explains the sample over all `class_num` classes with a fixed sampling
budget of 100 and `k` requested features; with predicted label `pl` (the
maximal-confidence class of that record), exactly when `pl` differs from
the ground truth a `confidence_threshold = 0` aggregator is lazily created
(if absent) at the `(ground_truth, pl)` cell and the full record is fed
into it; when `pl` equals the ground truth the cell map is unchanged. -/
theorem eaStep_spec (ex : Explainer) (class_num k : Nat) (d : CellMap)
    (s : Sample) (gt : Label) (pl : Label)
    (h : predictOf ex class_num k s = some pl) :
    eaStep ex class_num k d (s, gt) =
      .ok (if pl = gt then d
        else updateAt
          (if containsCell d (gt, pl) then d
           else d ++ [((gt, pl), ExplanationAggregator.create 0)])
          (gt, pl) (fun a => a.feed (ex s class_num 100 k))) := by
  simp only [eaStep, h]
  rw [apply_ite (Except.ok : CellMap → Except XaiError CellMap)]

/-- Witness for C4: a concrete two-class explainer whose top class for the
sample is 0 while the ground truth is 1, so the (1, 0) cell is created and
fed. -/
theorem eaStep_spec_witness :
    predictOf
      (fun _ _ _ _ =>
        [(0, ⟨1, [(3, 1)]⟩), (1, ⟨0, [(4, 1)]⟩)]) 2 5 9 = some 0 ∧
    eaStep
      (fun _ _ _ _ =>
        [(0, ⟨1, [(3, 1)]⟩), (1, ⟨0, [(4, 1)]⟩)]) 2 5 [] (9, 1) =
      .ok (if 0 = 1 then []
        else updateAt
          (if containsCell [] (1, 0) then []
           else [] ++ [((1, 0), ExplanationAggregator.create 0)])
          (1, 0)
          (fun a => a.feed
            ((fun _ _ _ _ =>
              [(0, ⟨1, [(3, 1)]⟩), (1, ⟨0, [(4, 1)]⟩)] : Explainer) 9 2 100 5))) :=
  ⟨by decide,
   eaStep_spec
     (fun _ _ _ _ => [(0, ⟨1, [(3, 1)]⟩), (1, ⟨0, [(4, 1)]⟩)])
     2 5 [] 9 1 0 (by decide)⟩

/-! ### What one `feed` does to the accumulated state (C6) -/

theorem addFS_zero_right (x : FeatureStat) : addFS x ⟨0, 0, 0, 0⟩ = x := by
  ext <;> simp [addFS]

theorem addFS_bump (x d : FeatureStat) (s : ℚ) (r : Nat) :
    addFS (bumpFS x s r) d =
      addFS x ⟨d.appearCount + 1, d.sumScore + s, d.sumRank + r, r ::ₘ d.rankHist⟩ := by
  ext
  · simp [addFS, bumpFS]; omega
  · simp [addFS, bumpFS]; ring
  · simp [addFS, bumpFS]; omega
  · simp [addFS, bumpFS, Multiset.cons_add, Multiset.add_cons]

/-- Pointwise effect of folding one enumerated feature list into the
per-feature statistics: every feature gains exactly its occurrences'
appearance count, score sum, rank sum and rank histogram. -/
theorem applyFeats_featDelta (ps : List (Nat × Feature × ℚ)) :
    ∀ (g : Feature → FeatureStat) (f : Feature),
      applyFeats g ps f = addFS (g f) (featDelta ps f) := by
  induction ps with
  | nil =>
      intro g f
      simp [applyFeats, featDelta, addFS_zero_right]
  | cons p ps ih =>
      intro g f
      show applyFeats (updFn g p.2.1 (bumpFS (g p.2.1) p.2.2 (p.1 + 1))) ps f =
        addFS (g f) (featDelta (p :: ps) f)
      rw [ih]
      by_cases hf : p.2.1 = f
      · have hupd : updFn g p.2.1 (bumpFS (g p.2.1) p.2.2 (p.1 + 1)) f =
            bumpFS (g f) p.2.2 (p.1 + 1) := by
          subst hf; simp [updFn]
        rw [hupd, addFS_bump]
        congr 1
        subst hf
        ext <;> simp [featDelta, List.filter_cons] <;> try first | omega | ring
      · have hupd : updFn g p.2.1 (bumpFS (g p.2.1) p.2.2 (p.1 + 1)) f = g f := by
          have hfn : f ≠ p.2.1 := fun h => hf h.symm
          simp [updFn, hfn]
        rw [hupd]
        congr 1
        simp [featDelta, List.filter_cons, hf]

theorem feedEntry_confidence_threshold (a : ExplanationAggregator)
    (e : Label × ClassExplanation) :
    (feedEntry a e).confidence_threshold = a.confidence_threshold := by
  unfold feedEntry; split <;> rfl

theorem feedEntry_classStat_ne (a : ExplanationAggregator)
    (e : Label × ClassExplanation) {c : Label} (h : c ≠ e.1) :
    (feedEntry a e).classStat c = a.classStat c := by
  unfold feedEntry
  split
  · simp [updFn, h]
  · rfl

theorem feed_classStat_not_mem :
    ∀ {exp : ExplanationRecord} (a : ExplanationAggregator) {c : Label},
      c ∉ exp.map Prod.fst → (a.feed exp).classStat c = a.classStat c := by
  intro exp
  induction exp with
  | nil => intro a c _; rfl
  | cons e rest ih =>
      intro a c hc
      rw [List.map_cons, List.mem_cons] at hc
      push_neg at hc
      show (ExplanationAggregator.feed (feedEntry a e) rest).classStat c = a.classStat c
      rw [ih (feedEntry a e) hc.2]
      exact feedEntry_classStat_ne a e hc.1

/-- With distinct class keys, the class statistics after a `feed` are the
old ones passed through `ClassStat.include` exactly for the classes whose
confidence reaches the threshold. -/
theorem feed_classStat_mem :
    ∀ {exp : ExplanationRecord} (a : ExplanationAggregator),
      (exp.map Prod.fst).Nodup → ∀ {c : Label} {ce : ClassExplanation}, (c, ce) ∈ exp →
      (a.feed exp).classStat c =
        if a.confidence_threshold ≤ ce.confidence then (a.classStat c).include ce
        else a.classStat c := by
  intro exp
  induction exp with
  | nil => intro a _ c ce hm; cases hm
  | cons e rest ih =>
      intro a hnd c ce hm
      rw [List.map_cons, List.nodup_cons] at hnd
      rcases List.mem_cons.mp hm with he | hrest
      · have he1 : e = (c, ce) := he.symm
        subst he1
        show (ExplanationAggregator.feed (feedEntry a (c, ce)) rest).classStat c = _
        rw [feed_classStat_not_mem _ hnd.1]
        unfold feedEntry
        by_cases hth : a.confidence_threshold ≤ ce.confidence
        · rw [if_pos hth, if_pos hth]
          simp [updFn]
        · rw [if_neg hth, if_neg hth]
      · have hne : c ≠ e.1 := by
          intro h
          apply hnd.1
          rw [← h]
          exact List.mem_map_of_mem Prod.fst hrest
        show (ExplanationAggregator.feed (feedEntry a e) rest).classStat c = _
        rw [ih (feedEntry a e) hnd.2 hrest, feedEntry_confidence_threshold,
          feedEntry_classStat_ne a e hne]

/-- C6: feeding a record (with distinct class keys, as a Python dict has)
updates exactly the classes whose confidence reaches the threshold
(inclusive bound): such a class's included-record count rises by one and
every feature gains exactly its occurrences' appearance count, score sum,
1-based rank sum and rank histogram from that class's ranked list; a class
strictly below the threshold keeps its statistics unchanged, and classes
not in the record are unaffected. -/
theorem feed_threshold_filtering (a : ExplanationAggregator) (exp : ExplanationRecord)
    (hnd : (exp.map Prod.fst).Nodup) (c : Label) (ce : ClassExplanation)
    (hm : (c, ce) ∈ exp) :
    ((a.confidence_threshold ≤ ce.confidence →
        ((a.feed exp).classStat c).recordCount = (a.classStat c).recordCount + 1 ∧
        ∀ f, ((a.feed exp).classStat c).featStat f =
          addFS ((a.classStat c).featStat f) (featDelta ce.features.enum f)) ∧
      (ce.confidence < a.confidence_threshold →
        (a.feed exp).classStat c = a.classStat c)) ∧
    ∀ c', c' ∉ exp.map Prod.fst → (a.feed exp).classStat c' = a.classStat c' := by
  refine ⟨⟨?_, ?_⟩, ?_⟩
  · intro hth
    rw [feed_classStat_mem a hnd hm, if_pos hth]
    exact ⟨rfl, fun f => applyFeats_featDelta ce.features.enum (a.classStat c).featStat f⟩
  · intro hth
    rw [feed_classStat_mem a hnd hm, if_neg (not_le.mpr hth)]
  · exact fun c' hc' => feed_classStat_not_mem a hc'

/-- Witness for C6: a concrete two-class record, one class at confidence 1
(included against threshold 1: the bound is inclusive) and one at
confidence 0 (excluded). -/
theorem feed_threshold_filtering_witness :
    (([(0, (⟨1, [(3, 1), (4, 2)]⟩ : ClassExplanation)),
       (1, (⟨0, [(3, 1)]⟩ : ClassExplanation))].map Prod.fst).Nodup ∧
      ((0 : Label), (⟨1, [(3, 1), (4, 2)]⟩ : ClassExplanation)) ∈
        [(0, (⟨1, [(3, 1), (4, 2)]⟩ : ClassExplanation)),
         (1, (⟨0, [(3, 1)]⟩ : ClassExplanation))]) ∧
    ((((ExplanationAggregator.create 1).confidence_threshold ≤
          (⟨1, [(3, 1), (4, 2)]⟩ : ClassExplanation).confidence →
        (((ExplanationAggregator.create 1).feed
            [(0, ⟨1, [(3, 1), (4, 2)]⟩), (1, ⟨0, [(3, 1)]⟩)]).classStat 0).recordCount =
          (((ExplanationAggregator.create 1).classStat 0)).recordCount + 1 ∧
        ∀ f, (((ExplanationAggregator.create 1).feed
            [(0, ⟨1, [(3, 1), (4, 2)]⟩), (1, ⟨0, [(3, 1)]⟩)]).classStat 0).featStat f =
          addFS (((ExplanationAggregator.create 1).classStat 0).featStat f)
            (featDelta (⟨1, [(3, 1), (4, 2)]⟩ : ClassExplanation).features.enum f)) ∧
      ((⟨1, [(3, 1), (4, 2)]⟩ : ClassExplanation).confidence <
          (ExplanationAggregator.create 1).confidence_threshold →
        ((ExplanationAggregator.create 1).feed
            [(0, ⟨1, [(3, 1), (4, 2)]⟩), (1, ⟨0, [(3, 1)]⟩)]).classStat 0 =
          (ExplanationAggregator.create 1).classStat 0)) ∧
    ∀ c', c' ∉ ([(0, (⟨1, [(3, 1), (4, 2)]⟩ : ClassExplanation)),
        (1, (⟨0, [(3, 1)]⟩ : ClassExplanation))].map Prod.fst) →
      ((ExplanationAggregator.create 1).feed
          [(0, ⟨1, [(3, 1), (4, 2)]⟩), (1, ⟨0, [(3, 1)]⟩)]).classStat c' =
        (ExplanationAggregator.create 1).classStat c') :=
  ⟨⟨by decide, by decide⟩,
   feed_threshold_filtering (ExplanationAggregator.create 1)
     [(0, ⟨1, [(3, 1), (4, 2)]⟩), (1, ⟨0, [(3, 1)]⟩)] (by decide)
     0 ⟨1, [(3, 1), (4, 2)]⟩ (by decide)⟩

/-! ### Feeding is commutative (C7) -/

theorem addFS_right_comm (x d1 d2 : FeatureStat) :
    addFS (addFS x d1) d2 = addFS (addFS x d2) d1 := by
  refine FeatureStat.featureStat_ext ?_ ?_ ?_ ?_
  all_goals simp only [addFS]
  · omega
  · ring
  · omega
  · exact add_right_comm x.rankHist d1.rankHist d2.rankHist

theorem updFn_apply_self {α β : Type} [DecidableEq α] (g : α → β) (a : α) (b : β) :
    updFn g a b a = b := by
  simp [updFn]

theorem updFn_apply_ne {α β : Type} [DecidableEq α] (g : α → β) (a : α) (b : β)
    {c : α} (h : c ≠ a) : updFn g a b c = g c := by
  simp [updFn, h]

theorem updFn_same {α β : Type} [DecidableEq α] (g : α → β) (a : α) (b c : β) :
    updFn (updFn g a b) a c = updFn g a c := by
  funext x
  unfold updFn
  by_cases h : x = a <;> simp [h]

theorem updFn_comm {α β : Type} [DecidableEq α] (g : α → β) {a1 a2 : α}
    (h : a1 ≠ a2) (b1 b2 : β) :
    updFn (updFn g a1 b1) a2 b2 = updFn (updFn g a2 b2) a1 b1 := by
  funext x
  unfold updFn
  by_cases h1 : x = a1
  · subst h1
    simp [h]
  · by_cases h2 : x = a2 <;> simp [h1, h2, Ne.symm h]

theorem applyFeats_comm (g : Feature → FeatureStat)
    (ps1 ps2 : List (Nat × Feature × ℚ)) :
    applyFeats (applyFeats g ps1) ps2 = applyFeats (applyFeats g ps2) ps1 := by
  funext f
  simp only [applyFeats_featDelta]
  exact addFS_right_comm _ _ _

theorem include_comm (cs : ClassStat) (ce1 ce2 : ClassExplanation) :
    (cs.include ce1).include ce2 = (cs.include ce2).include ce1 := by
  refine ClassStat.classStat_ext rfl ?_ ?_
  · exact Finset.union_right_comm _ _ _
  · exact applyFeats_comm cs.featStat ce1.features.enum ce2.features.enum

theorem feedEntry_comm (a : ExplanationAggregator) (e1 e2 : Label × ClassExplanation) :
    feedEntry (feedEntry a e1) e2 = feedEntry (feedEntry a e2) e1 := by
  by_cases h1 : a.confidence_threshold ≤ e1.2.confidence
  · by_cases h2 : a.confidence_threshold ≤ e2.2.confidence
    · simp only [feedEntry, if_pos h1, if_pos h2]
      refine ExplanationAggregator.aggregator_ext rfl (Finset.Insert.comm _ _ _) ?_
      by_cases hcc : e1.1 = e2.1
      · rw [← hcc, updFn_apply_self, updFn_apply_self, updFn_same, updFn_same,
          include_comm]
      · rw [updFn_apply_ne _ _ _ (fun h => hcc h.symm),
          updFn_apply_ne _ _ _ hcc, updFn_comm _ hcc]
    · simp only [feedEntry, if_pos h1, if_neg h2]
  · by_cases h2 : a.confidence_threshold ≤ e2.2.confidence
    · simp only [feedEntry, if_neg h1, if_pos h2]
    · simp only [feedEntry, if_neg h1, if_neg h2]

theorem feed_feedEntry_comm :
    ∀ (exp : ExplanationRecord) (a : ExplanationAggregator)
      (e : Label × ClassExplanation),
      (feedEntry a e).feed exp = feedEntry (a.feed exp) e := by
  intro exp
  induction exp with
  | nil => intro a e; rfl
  | cons r rest ih =>
      intro a e
      show (feedEntry (feedEntry a e) r).feed rest = feedEntry ((feedEntry a r).feed rest) e
      rw [feedEntry_comm a e r]
      exact ih (feedEntry a r) e

theorem feed_comm (a : ExplanationAggregator) (R1 R2 : ExplanationRecord) :
    (a.feed R1).feed R2 = (a.feed R2).feed R1 := by
  induction R1 generalizing a with
  | nil => rfl
  | cons e R1 ih =>
      show ((feedEntry a e).feed R1).feed R2 = (a.feed R2).feed (e :: R1)
      rw [ih (feedEntry a e)]
      show ((feedEntry a e).feed R2).feed R1 = (a.feed R2).feed (e :: R1)
      rw [feed_feedEntry_comm R2 a e]
      rfl

/-- C7: feeding two records in either order into a fresh aggregator yields
identical `get_statistics` output for every supported statistic type and
every `k` (aggregation does not depend on feed order). -/
theorem get_statistics_feed_comm (t0 : ℚ) (R1 R2 : ExplanationRecord)
    (stats_type : String) (k : Nat)
    (_h : stats_type = "top_k" ∨ stats_type = "average_score" ∨
      stats_type = "average_ranking") :
    (((ExplanationAggregator.create t0).feed R1).feed R2).get_statistics stats_type k =
      (((ExplanationAggregator.create t0).feed R2).feed R1).get_statistics stats_type k := by
  rw [feed_comm]

/-- Witness for C7 at two concrete one-class records and `top_k`. -/
theorem get_statistics_feed_comm_witness :
    (("top_k" : String) = "top_k" ∨ ("top_k" : String) = "average_score" ∨
      ("top_k" : String) = "average_ranking") ∧
    ((((ExplanationAggregator.create 0).feed
        [(0, ⟨1, [(3, 1)]⟩)]).feed [(1, ⟨1, [(4, 2)]⟩)]).get_statistics "top_k" 2 =
      (((ExplanationAggregator.create 0).feed
        [(1, ⟨1, [(4, 2)]⟩)]).feed [(0, ⟨1, [(3, 1)]⟩)]).get_statistics "top_k" 2) :=
  ⟨Or.inl rfl,
   get_statistics_feed_comm 0 [(0, ⟨1, [(3, 1)]⟩)] [(1, ⟨1, [(4, 2)]⟩)]
     "top_k" 2 (Or.inl rfl)⟩

/-! ### Association-list kit for the cell maps (towards C5) -/

theorem lookupCell_append_some {γ : Type} {d1 : List ((Label × Label) × γ)}
    (d2 : List ((Label × Label) × γ)) {c : Label × Label} {a : γ}
    (h : lookupCell d1 c = some a) : lookupCell (d1 ++ d2) c = some a := by
  induction d1 with
  | nil => simp [lookupCell] at h
  | cons q d ih =>
      rw [lookupCell] at h
      by_cases hq : q.1 = c
      · rw [if_pos hq] at h
        rw [List.cons_append, lookupCell, if_pos hq]
        exact h
      · rw [if_neg hq] at h
        rw [List.cons_append, lookupCell, if_neg hq]
        exact ih h

theorem lookupCell_append_none {γ : Type} {d1 : List ((Label × Label) × γ)}
    (d2 : List ((Label × Label) × γ)) {c : Label × Label}
    (h : lookupCell d1 c = none) : lookupCell (d1 ++ d2) c = lookupCell d2 c := by
  induction d1 with
  | nil => rfl
  | cons q d ih =>
      rw [lookupCell] at h
      by_cases hq : q.1 = c
      · rw [if_pos hq] at h
        cases h
      · rw [if_neg hq] at h
        rw [List.cons_append, lookupCell, if_neg hq]
        exact ih h

theorem updateAt_keys (d : CellMap) (cell : Label × Label)
    (f : ExplanationAggregator → ExplanationAggregator) :
    (updateAt d cell f).map Prod.fst = d.map Prod.fst := by
  unfold updateAt
  rw [List.map_map]
  apply List.map_congr_left
  intro q _
  by_cases h : q.1 = cell <;> simp [h]

theorem lookupCell_updateAt_ne {d : CellMap} {cell c : Label × Label}
    (f : ExplanationAggregator → ExplanationAggregator) (h : c ≠ cell) :
    lookupCell (updateAt d cell f) c = lookupCell d c := by
  induction d with
  | nil => rfl
  | cons q d ih =>
      unfold updateAt at ih ⊢
      rw [List.map_cons]
      by_cases hq : q.1 = cell
      · rw [if_pos hq, lookupCell, lookupCell]
        have : ¬(q.1 = c) := by rw [hq]; exact fun hc => h hc.symm
        rw [if_neg this, if_neg this]
        exact ih
      · rw [if_neg hq, lookupCell, lookupCell]
        by_cases hc : q.1 = c
        · rw [if_pos hc, if_pos hc]
        · rw [if_neg hc, if_neg hc]
          exact ih

theorem lookupCell_updateAt_some {d : CellMap} {cell : Label × Label}
    {a : ExplanationAggregator} (f : ExplanationAggregator → ExplanationAggregator)
    (h : lookupCell d cell = some a) :
    lookupCell (updateAt d cell f) cell = some (f a) := by
  induction d with
  | nil => simp [lookupCell] at h
  | cons q d ih =>
      rw [lookupCell] at h
      unfold updateAt at ih ⊢
      rw [List.map_cons]
      by_cases hq : q.1 = cell
      · rw [if_pos hq] at h
        injection h with h
        rw [if_pos hq, lookupCell, if_pos hq, h]
      · rw [if_neg hq] at h
        rw [if_neg hq, lookupCell, if_neg hq]
        exact ih h

theorem containsCell_false_lookup {d : CellMap} {c : Label × Label}
    (h : containsCell d c = false) : lookupCell d c = none := by
  induction d with
  | nil => rfl
  | cons q d ih =>
      rw [containsCell, List.any_cons, Bool.or_eq_false_iff] at h
      rw [lookupCell, if_neg (by simpa using h.1)]
      exact ih h.2

theorem containsCell_true_lookup {d : CellMap} {c : Label × Label}
    (h : containsCell d c = true) : ∃ a, lookupCell d c = some a := by
  induction d with
  | nil => simp [containsCell] at h
  | cons q d ih =>
      rw [containsCell, List.any_cons, Bool.or_eq_true] at h
      by_cases hq : q.1 = c
      · exact ⟨q.2, by rw [lookupCell, if_pos hq]⟩
      · rw [lookupCell, if_neg hq]
        rcases h with h | h
        · exact absurd (by simpa using h) hq
        · exact ih h

theorem containsCell_false_not_mem {d : CellMap} {c : Label × Label}
    (h : containsCell d c = false) : c ∉ d.map Prod.fst := by
  intro hmem
  rcases List.mem_map.mp hmem with ⟨q, hq, hq1⟩
  rw [containsCell, List.any_eq_false] at h
  exact h q hq (by simpa using hq1)

theorem lookupCell_map_value {γ δ : Type} (g : γ → δ)
    (d : List ((Label × Label) × γ)) (c : Label × Label) :
    lookupCell (d.map (fun q => (q.1, g q.2))) c = (lookupCell d c).map g := by
  induction d with
  | nil => rfl
  | cons q d ih =>
      rw [List.map_cons, lookupCell, lookupCell]
      by_cases hq : q.1 = c
      · rw [if_pos hq, if_pos hq]
        rfl
      · rw [if_neg hq, if_neg hq]
        exact ih

theorem cellRecords_cons_ne {ex : Explainer} {class_num k : Nat}
    {p : Sample × Label} {cell : Label × Label}
    (ps : List (Sample × Label)) (h : misCell ex class_num k p ≠ some cell) :
    cellRecords ex class_num k (p :: ps) cell = cellRecords ex class_num k ps cell := by
  unfold cellRecords
  rw [List.filter_cons, if_neg (by simpa using h)]

theorem cellRecords_cons_self {ex : Explainer} {class_num k : Nat}
    {p : Sample × Label} {cell : Label × Label}
    (ps : List (Sample × Label)) (h : misCell ex class_num k p = some cell) :
    cellRecords ex class_num k (p :: ps) cell =
      ex p.1 class_num 100 k :: cellRecords ex class_num k ps cell := by
  unfold cellRecords
  rw [List.filter_cons, if_pos (by simpa using h), List.map_cons]

theorem predictOf_of_ne_nil {ex : Explainer} {class_num k : Nat} {s : Sample}
    (h : ex s class_num 100 k ≠ []) : ∃ pl, predictOf ex class_num k s = some pl := by
  unfold predictOf
  cases hs : sortDesc (probList (ex s class_num 100 k)) with
  | nil =>
      exfalso
      apply h
      have := sortDesc_eq_nil_iff.mp hs
      unfold probList at this
      simpa using this
  | cons y ys => exact ⟨y.1, rfl⟩

theorem get_statistics_ok {stats_type : String}
    (ht : stats_type = "top_k" ∨ stats_type = "average_score" ∨
      stats_type = "average_ranking") (a : ExplanationAggregator) (k : Nat) :
    a.get_statistics stats_type k = .ok (statsVal a stats_type k) := by
  unfold ExplanationAggregator.get_statistics
  rw [if_pos ht]

theorem statsOfCells_ok {stats_type : String}
    (ht : stats_type = "top_k" ∨ stats_type = "average_score" ∨
      stats_type = "average_ranking") (k : Nat) :
    ∀ cells : CellMap, statsOfCells stats_type k cells =
      .ok (cells.map (fun q => (q.1, statsVal q.2 stats_type k))) := by
  intro cells
  induction cells with
  | nil => rfl
  | cons q rest ih =>
      rw [statsOfCells, get_statistics_ok ht, ih, List.map_cons]

/-- Value of one `error_analysis` iteration, given the predicted label
(shared helper). -/
theorem eaStep_eq (ex : Explainer) (class_num k : Nat) (d : CellMap)
    (s : Sample) (gt pl : Label) (h : predictOf ex class_num k s = some pl) :
    eaStep ex class_num k d (s, gt) =
      .ok (if pl = gt then d
        else updateAt
          (if containsCell d (gt, pl) then d
           else d ++ [((gt, pl), ExplanationAggregator.create 0)])
          (gt, pl) (fun a => a.feed (ex s class_num 100 k))) := by
  simp only [eaStep, h]
  rw [apply_ite (Except.ok : CellMap → Except XaiError CellMap)]

/-- The cell-accumulation loop of `error_analysis`, characterized: it
succeeds when every record is nonempty, its cell keys stay duplicate-free,
a cell already present accumulates exactly the records routed to it, and a
cell absent at the start is present afterwards exactly when some processed
pair was misclassified into it, holding a fresh threshold-0 aggregator fed
those records in order. -/
theorem analyzeCells_spec (ex : Explainer) (class_num k : Nat) :
    ∀ (ps : List (Sample × Label)) (d : CellMap),
      (∀ p ∈ ps, ex p.1 class_num 100 k ≠ []) →
      (d.map Prod.fst).Nodup →
      ∃ cells, analyzeCells ex class_num k d ps = .ok cells ∧
        (cells.map Prod.fst).Nodup ∧
        (∀ cell a, lookupCell d cell = some a →
          lookupCell cells cell =
            some (feeds a (cellRecords ex class_num k ps cell))) ∧
        (∀ cell, lookupCell d cell = none →
          lookupCell cells cell =
            if ps.any (fun p => decide (misCell ex class_num k p = some cell)) then
              some (feeds (ExplanationAggregator.create 0)
                (cellRecords ex class_num k ps cell))
            else none) := by
  intro ps
  induction ps with
  | nil =>
      intro d _ hnd
      refine ⟨d, rfl, hnd, ?_, ?_⟩
      · intro cell a hla
        simpa [cellRecords, feeds] using hla
      · intro cell hla
        simp [cellRecords, feeds, hla]
  | cons p ps ih =>
      intro d hne hnd
      have hp : ex p.1 class_num 100 k ≠ [] := hne p (List.mem_cons_self p ps)
      have hne' : ∀ q ∈ ps, ex q.1 class_num 100 k ≠ [] :=
        fun q hq => hne q (List.mem_cons_of_mem p hq)
      obtain ⟨pl, hpl⟩ := predictOf_of_ne_nil hp
      by_cases hmis : pl = p.2
      · have hmc : misCell ex class_num k p = none := by
          simp [misCell, hpl, hmis]
        have hstep : eaStep ex class_num k d p = .ok d := by
          have hst := eaStep_eq ex class_num k d p.1 p.2 pl hpl
          rw [if_pos hmis] at hst
          exact hst
        obtain ⟨cells, hok, hnodup, hsome, hnone⟩ := ih d hne' hnd
        have hmcne : ∀ cell : Label × Label,
            misCell ex class_num k p ≠ some cell := by
          intro cell hcon
          rw [hmc] at hcon
          cases hcon
        refine ⟨cells, ?_, hnodup, ?_, ?_⟩
        · simp only [analyzeCells]
          rw [hstep]
          exact hok
        · intro cell a hla
          rw [hsome cell a hla, cellRecords_cons_ne ps (hmcne cell)]
        · intro cell hla
          rw [hnone cell hla, cellRecords_cons_ne ps (hmcne cell)]
          have hdec : (decide (misCell ex class_num k p = some cell)) = false :=
            decide_eq_false (hmcne cell)
          rw [List.any_cons, hdec, Bool.false_or]
      · have hmc : misCell ex class_num k p = some (p.2, pl) := by
          simp [misCell, hpl, hmis]
        set d1 : CellMap :=
          (if containsCell d (p.2, pl) then d
           else d ++ [((p.2, pl), ExplanationAggregator.create 0)]) with hd1
        set d2 : CellMap :=
          updateAt d1 (p.2, pl) (fun a => a.feed (ex p.1 class_num 100 k)) with hd2
        have hstep : eaStep ex class_num k d p = .ok d2 := by
          have hst := eaStep_eq ex class_num k d p.1 p.2 pl hpl
          rw [if_neg hmis] at hst
          exact hst
        have hnd1 : (d1.map Prod.fst).Nodup := by
          rw [hd1]
          by_cases hc : containsCell d (p.2, pl) = true
          · rw [if_pos hc]
            exact hnd
          · have hc' : containsCell d (p.2, pl) = false := by
              revert hc
              cases containsCell d (p.2, pl) <;> simp
            rw [if_neg (by rw [hc']; exact Bool.false_ne_true), List.map_append]
            rw [List.nodup_append]
            refine ⟨hnd, List.nodup_singleton _, ?_⟩
            intro x hx hx2
            simp only [List.map_cons, List.map_nil, List.mem_singleton] at hx2
            subst hx2
            exact containsCell_false_not_mem hc' hx
        have hnd2 : (d2.map Prod.fst).Nodup := by
          rw [hd2, updateAt_keys]
          exact hnd1
        have hA : ∀ cell, cell ≠ (p.2, pl) → lookupCell d2 cell = lookupCell d cell := by
          intro cell hcne
          rw [hd2, lookupCell_updateAt_ne _ hcne, hd1]
          by_cases hc : containsCell d (p.2, pl) = true
          · rw [if_pos hc]
          · rw [if_neg hc]
            cases hl : lookupCell d cell with
            | some a => exact lookupCell_append_some _ hl
            | none =>
                rw [lookupCell_append_none _ hl, lookupCell,
                  if_neg (fun hcon => hcne hcon.symm), lookupCell]
        have hB : ∀ a, lookupCell d (p.2, pl) = some a →
            lookupCell d2 (p.2, pl) = some (a.feed (ex p.1 class_num 100 k)) := by
          intro a hla
          rw [hd2]
          apply lookupCell_updateAt_some
          rw [hd1]
          by_cases hc : containsCell d (p.2, pl) = true
          · rw [if_pos hc]
            exact hla
          · rw [if_neg hc]
            exact lookupCell_append_some _ hla
        have hB0 : lookupCell d (p.2, pl) = none →
            lookupCell d2 (p.2, pl) =
              some ((ExplanationAggregator.create 0).feed (ex p.1 class_num 100 k)) := by
          intro hla
          rw [hd2]
          apply lookupCell_updateAt_some
          rw [hd1]
          have hc' : containsCell d (p.2, pl) = false := by
            cases hcc : containsCell d (p.2, pl)
            · rfl
            · obtain ⟨a, ha⟩ := containsCell_true_lookup hcc
              rw [ha] at hla
              cases hla
          rw [if_neg (by rw [hc']; exact Bool.false_ne_true),
            lookupCell_append_none _ hla, lookupCell, if_pos rfl]
        obtain ⟨cells, hok, hnodup, hsome, hnone⟩ := ih d2 hne' hnd2
        refine ⟨cells, ?_, hnodup, ?_, ?_⟩
        · simp only [analyzeCells]
          rw [hstep]
          exact hok
        · intro cell a hla
          by_cases hcne : cell = (p.2, pl)
          · subst hcne
            rw [hsome _ _ (hB a hla), cellRecords_cons_self ps hmc]
            rfl
          · have hmcne : misCell ex class_num k p ≠ some cell := by
              rw [hmc]
              intro hcon
              injection hcon with hcon
              exact hcne hcon.symm
            rw [hsome _ _ (by rw [hA cell hcne]; exact hla),
              cellRecords_cons_ne ps hmcne]
        · intro cell hla
          by_cases hcne : cell = (p.2, pl)
          · subst hcne
            rw [hsome _ _ (hB0 hla), cellRecords_cons_self ps hmc]
            have hany : ((p :: ps).any
                (fun q => decide (misCell ex class_num k q = some (p.2, pl)))) = true := by
              rw [List.any_cons, decide_eq_true hmc, Bool.true_or]
            rw [hany, if_pos rfl]
            rfl
          · have hmcne : misCell ex class_num k p ≠ some cell := by
              rw [hmc]
              intro hcon
              injection hcon with hcon
              exact hcne hcon.symm
            have hla2 : lookupCell d2 cell = none := by
              rw [hA cell hcne]
              exact hla
            rw [hnone _ hla2, cellRecords_cons_ne ps hmcne]
            have hdec : (decide (misCell ex class_num k p = some cell)) = false :=
              decide_eq_false hmcne
            rw [List.any_cons, hdec, Bool.false_or]

/-- C5: with a built explainer, nonempty per-sample records, and a
supported statistic type, `error_analysis` succeeds; its result has
duplicate-free cell keys, and a cell is a key exactly when at least one
validation pair was misclassified into it (correctly classified pairs
contribute to no cell), in which case the cell maps to
`get_statistics(stats_type, k)` of a fresh threshold-0 aggregator fed, in
input order, exactly the records routed to that cell. -/
theorem error_analysis_cells (dom : String) (alg : Option String) (ex : Explainer)
    (class_num : Nat) (valid_x : List Sample) (valid_y : List Label)
    (stats_type : String) (k : Nat)
    (hne : ∀ p ∈ valid_x.zip valid_y, ex p.1 class_num 100 k ≠ [])
    (ht : stats_type = "top_k" ∨ stats_type = "average_score" ∨
      stats_type = "average_ranking") :
    ∃ res, (ModelInterpreter.mk dom alg (some ex)).error_analysis class_num
        valid_x valid_y stats_type k = .ok res ∧
      (res.map Prod.fst).Nodup ∧
      ∀ cell, lookupCell res cell =
        if (valid_x.zip valid_y).any
            (fun p => decide (misCell ex class_num k p = some cell)) then
          some (statsVal (feeds (ExplanationAggregator.create 0)
            (cellRecords ex class_num k (valid_x.zip valid_y) cell)) stats_type k)
        else none := by
  obtain ⟨cells, hok, hnodup, _hsome, hnone⟩ :=
    analyzeCells_spec ex class_num k (valid_x.zip valid_y) [] hne List.nodup_nil
  refine ⟨cells.map (fun q => (q.1, statsVal q.2 stats_type k)), ?_, ?_, ?_⟩
  · simp only [ModelInterpreter.error_analysis]
    rw [hok]
    exact statsOfCells_ok ht k cells
  · have hk : (cells.map (fun q => (q.1, statsVal q.2 stats_type k))).map Prod.fst =
        cells.map Prod.fst := by
      rw [List.map_map]
      apply List.map_congr_left
      intro q _
      rfl
    rw [hk]
    exact hnodup
  · intro cell
    have hmap : lookupCell (cells.map (fun q => (q.1, statsVal q.2 stats_type k))) cell =
        (lookupCell cells cell).map (fun a => statsVal a stats_type k) :=
      lookupCell_map_value (fun a => statsVal a stats_type k) cells cell
    rw [hmap, hnone cell rfl]
    cases hany : (valid_x.zip valid_y).any
        (fun p => decide (misCell ex class_num k p = some cell)) with
    | false => simp
    | true => simp

/-- Witness for C5: two validation pairs against a constant two-class
explainer whose top class is always 0; the pair with ground truth 1 is
misclassified into cell (1, 0), the pair with ground truth 0 is correct. -/
theorem error_analysis_cells_witness :
    (∀ p ∈ ([10, 11] : List Sample).zip ([1, 0] : List Label),
      ((fun _ _ _ _ =>
        [(0, (⟨1, [(0, 1)]⟩ : ClassExplanation)),
         (1, (⟨0, [(1, 1)]⟩ : ClassExplanation))]) : Explainer) p.1 2 100 5 ≠ []) ∧
    (("top_k" : String) = "top_k" ∨ ("top_k" : String) = "average_score" ∨
      ("top_k" : String) = "average_ranking") ∧
    (∃ res, (ModelInterpreter.mk "tabular" none (some (fun _ _ _ _ =>
        [(0, (⟨1, [(0, 1)]⟩ : ClassExplanation)),
         (1, (⟨0, [(1, 1)]⟩ : ClassExplanation))]))).error_analysis 2
        [10, 11] [1, 0] "top_k" 5 = .ok res ∧
      (res.map Prod.fst).Nodup ∧
      ∀ cell, lookupCell res cell =
        if (([10, 11] : List Sample).zip ([1, 0] : List Label)).any
            (fun p => decide (misCell (fun _ _ _ _ =>
              [(0, (⟨1, [(0, 1)]⟩ : ClassExplanation)),
               (1, (⟨0, [(1, 1)]⟩ : ClassExplanation))]) 2 5 p = some cell)) then
          some (statsVal (feeds (ExplanationAggregator.create 0)
            (cellRecords (fun _ _ _ _ =>
              [(0, (⟨1, [(0, 1)]⟩ : ClassExplanation)),
               (1, (⟨0, [(1, 1)]⟩ : ClassExplanation))]) 2 5
              (([10, 11] : List Sample).zip ([1, 0] : List Label)) cell)) "top_k" 5)
        else none) :=
  ⟨by decide, Or.inl rfl,
   error_analysis_cells "tabular" none
     (fun _ _ _ _ =>
       [(0, (⟨1, [(0, 1)]⟩ : ClassExplanation)),
        (1, (⟨0, [(1, 1)]⟩ : ClassExplanation))])
     2 [10, 11] [1, 0] "top_k" 5 (by decide) (Or.inl rfl)⟩

end Xai
